import Mathlib

/-!
Verification of the redact-x repository core: trigger-list flattening,
the redaction resolution logic of `apply_redactions` (redact_unified.py),
the `RegionStore` undo/redo state machine, and the JSON persistence layer.
Python strings are modelled as `List Char`, Python floats as `ℚ`, Python
dicts keyed by `str(page)` as association lists keyed by `Nat` (the key
set used by the program is the image of `Nat` under `str`, on which `str`
is injective).
-/

namespace Redact

/-- Python strings, modelled as lists of characters. -/
abbrev PyStr := List Char

/-- Characters stripped by Python `str.strip()` (whitespace), over the
character repertoire this program manipulates: ASCII whitespace plus the
extra control characters and NBSP that CPython treats as space. -/
def isPySpace (c : Char) : Bool :=
  c = ' ' || c = '\t' || c = '\n' || c = '\r' ||
  c = Char.ofNat 0x0b || c = Char.ofNat 0x0c ||
  c = Char.ofNat 0x1c || c = Char.ofNat 0x1d ||
  c = Char.ofNat 0x1e || c = Char.ofNat 0x1f ||
  c = Char.ofNat 0x85 || c = Char.ofNat 0xa0

/-- Python `str.strip()`: drop leading and trailing whitespace. -/
def stripPy (s : PyStr) : PyStr :=
  ((s.dropWhile isPySpace).reverse.dropWhile isPySpace).reverse

/-- Line boundary characters of Python `str.splitlines()`. -/
def isLineBoundary (c : Char) : Bool :=
  c = '\n' || c = '\r' ||
  c = Char.ofNat 0x0b || c = Char.ofNat 0x0c ||
  c = Char.ofNat 0x1c || c = Char.ofNat 0x1d ||
  c = Char.ofNat 0x1e || c = Char.ofNat 0x85 ||
  c = Char.ofNat 0x2028 || c = Char.ofNat 0x2029

/-- Worker for `splitlinesPy`; `acc` holds the current line reversed. -/
def splitlinesGo : List Char → List Char → List PyStr
  | [], acc => if acc.isEmpty then [] else [acc.reverse]
  | '\r' :: '\n' :: cs, acc => acc.reverse :: splitlinesGo cs []
  | c :: cs, acc =>
    if isLineBoundary c then acc.reverse :: splitlinesGo cs []
    else splitlinesGo cs (c :: acc)

/-- Python `str.splitlines()`: split at line boundaries, treating CRLF as
one boundary; a trailing boundary does not produce a final empty line. -/
def splitlinesPy (s : PyStr) : List PyStr :=
  splitlinesGo s []

/-- Python `str.lower()` restricted to ASCII case folding. -/
def lowerStr (s : PyStr) : PyStr :=
  s.map Char.toLower

/-- Boolean test that `a` is an initial segment of `b`. -/
def isLead : List Char → List Char → Bool
  | [], _ => true
  | _ :: _, [] => false
  | a :: as, b :: bs => a == b && isLead as bs

/-- Python `needle in hay` on strings: substring containment. -/
def isSub (n h : PyStr) : Bool :=
  (List.range (h.length + 1)).any (fun i => isLead n (h.drop i))

/-!
Trigger-list flattening.

Source A (`build_standalone.py` lines 553-562 and `redact-5b_GUI.py`
lines 450-459, identical bodies):

    def build_targets(passages, keywords):
        targets = []
        for passage in passages:
            for line in passage.strip().splitlines():
                s = line.strip()
                if s:  # ignore blank lines
                    targets.append(s)
        targets += keywords
        return targets

Source B (`redact_unified.py`, `apply_redactions`, lines 1859-1861):

    all_patterns = patterns.get('keywords', []).copy()
    all_patterns += patterns.get('passages', [])
-/

/-- Body of the inner loop of `build_targets`: strip the line, append it
to the accumulator when non-blank. -/
def addLine (ts : List PyStr) (line : PyStr) : List PyStr :=
  let s := stripPy line
  if s = [] then ts else ts ++ [s]

/-- Body of the outer loop of `build_targets`: fold the inner loop over
the stripped passage split into lines. -/
def addPassage (targets : List PyStr) (passage : PyStr) : List PyStr :=
  (splitlinesPy (stripPy passage)).foldl addLine targets

/-- `build_targets(passages, keywords)` from build_standalone.py and
redact-5b_GUI.py: flatten passage lines, then append the keywords. -/
def build_targets (passages keywords : List PyStr) : List PyStr :=
  (passages.foldl addPassage []) ++ keywords

/-- The pattern configuration `{'keywords': [...], 'passages': [...]}`. -/
structure PatternSet where
  keywords : List PyStr
  passages : List PyStr

/-- Trigger list built by `apply_redactions` in redact_unified.py:
`all_patterns = patterns.get('keywords', []).copy(); all_patterns +=
patterns.get('passages', [])` — keywords followed by the passages kept
as whole blocks. -/
def allPatterns (ps : PatternSet) : List PyStr :=
  ps.keywords ++ ps.passages

/-- Declarative description of what one passage contributes in
`build_targets`: its stripped non-blank lines, in order. -/
def passageLines (p : PyStr) : List PyStr :=
  ((splitlinesPy (stripPy p)).map stripPy).filter (fun s => !s.isEmpty)

/-!
Resolution logic of `apply_redactions` (redact_unified.py, lines
1846-1956).  Geometry uses exact rationals in place of Python floats;
the page is an oracle supplying the results of the external PDF
library calls `page.search_for`, `page.get_textbox` (with `none`
modelling a raised exception, the `except: pass` path) and the OCR
extraction `(text, rect)` pairs.
-/

/-- Axis-aligned rectangle, the shape handed around as `fitz.Rect`. -/
structure Rect where
  x0 : ℚ
  y0 : ℚ
  x1 : ℚ
  y1 : ℚ
deriving DecidableEq

/-- Containment test used by the protection checks: the code uses
`prot_rect.contains(area)` on the text path and spells out
`rect.x0 >= px1 and rect.y0 >= py1 and rect.x1 <= px2 and rect.y1 <= py2`
on the OCR and regex paths; on the finite rectangles produced by search
both mean these four inequalities. -/
def rectContains (outer inner : Rect) : Bool :=
  decide (outer.x0 ≤ inner.x0 ∧ outer.y0 ≤ inner.y0 ∧
          inner.x1 ≤ outer.x1 ∧ inner.y1 ≤ outer.y1)

/-- Overlap test, used to state the partial-overlap half of the
protection claim. -/
def rectIntersects (a b : Rect) : Bool :=
  decide (max a.x0 b.x0 ≤ min a.x1 b.x1 ∧ max a.y0 b.y0 ≤ min a.y1 b.y1)

/-- Context widening: `expanded.x0 -= 20; expanded.x1 += 20`. -/
def expandRect (r : Rect) : Rect :=
  { r with x0 := r.x0 - 20, x1 := r.x1 + 20 }

/-- Oracle for one page: text-layer search results per pattern, the
textbox extraction (`none` models a raised exception), and the OCR
word list with positions. -/
structure Page where
  occ : PyStr → List Rect
  textbox : Rect → Option PyStr
  ocr : List (PyStr × Rect)

/-- Self-exclusion test of `apply_redactions` line 1868:
`any(excl.lower() in pattern.lower() for excl in exclusions)`. -/
def selfExcluded (excls : List PyStr) (t : PyStr) : Bool :=
  excls.any (fun e => isSub (lowerStr e) (lowerStr t))

/-- Protection flag of lines 1874-1880: some protect rectangle of the
page contains the found area. -/
def isProtectedArea (prots : List Rect) (area : Rect) : Bool :=
  prots.any (fun p => rectContains p area)

/-- Context exclusion check of lines 1884-1895: widen the area, extract
its text, suppress if an exclusion occurs in it case-insensitively; a
raised extraction (`except: pass`) leaves `should_redact = True`. -/
def contextAllows (page : Page) (excls : List PyStr) (area : Rect) : Bool :=
  match page.textbox (expandRect area) with
  | none => true
  | some ctx => !(excls.any (fun e => isSub (lowerStr e) (lowerStr ctx)))

/-- Redaction rectangles generated by one trigger string `t` on the
text-layer path (lines 1867-1898): skip `t` entirely when
self-excluded, otherwise keep each found area that is not inside a
protect region and survives the context check. -/
def textRedactionsFor (page : Page) (excls : List PyStr) (prots : List Rect)
    (t : PyStr) : List Rect :=
  if selfExcluded excls t then []
  else (page.occ t).filter
    (fun area => !(isProtectedArea prots area) && contextAllows page excls area)

/-- All rectangles produced by the text-layer pattern loop of one page. -/
def textRedactions (page : Page) (patterns excls : List PyStr)
    (prots : List Rect) : List Rect :=
  patterns.flatMap (textRedactionsFor page excls prots)

/-- Contribution of one pattern to one OCR result `(text, rect)` (lines
1901-1917): redact `rect` when the pattern occurs in the OCR text, the
rect is in no protect region, and no exclusion occurs in the OCR text. -/
def ocrContribution (excls : List PyStr) (prots : List Rect)
    (text : PyStr) (rect : Rect) (pattern : PyStr) : List Rect :=
  if isSub (lowerStr pattern) (lowerStr text) then
    if prots.any (fun p => rectContains p rect) then []
    else if excls.any (fun e => isSub (lowerStr e) (lowerStr text)) then []
    else [rect]
  else []

/-- All rectangles produced by the OCR loop of one page. -/
def ocrRedactions (page : Page) (patterns excls : List PyStr)
    (prots : List Rect) : List Rect :=
  page.ocr.flatMap (fun tr => patterns.flatMap (ocrContribution excls prots tr.1 tr.2))

/-!
RegionStore (redact_unified.py lines 275-375) and the manual-region
burn-in loop of `apply_redactions` (lines 1853-1857).  Bboxes are the
`list[float]` values the callers pass in; the page-keyed dicts become
association lists with unique keys in insertion order.
-/

/-- Python `list[float]` bounding box. -/
abbrev Bbox := List ℚ

/-- Page-keyed region dictionary `{str(page): [bbox, ...]}`. -/
abbrev RegionMap := List (Nat × List Bbox)

/-- Python `items.get(str(page), [])`. -/
def mapGet (m : RegionMap) (k : Nat) : List Bbox :=
  match m with
  | [] => []
  | (k0, v) :: rest => if k0 = k then v else mapGet rest k

/-- Python `items.setdefault(str(page), []).append(bbox)`: append to the
existing binding, or append a new binding at the end. -/
def mapAppend (m : RegionMap) (k : Nat) (b : Bbox) : RegionMap :=
  match m with
  | [] => [(k, [b])]
  | (k0, v) :: rest =>
    if k0 = k then (k0, v ++ [b]) :: rest else (k0, v) :: mapAppend rest k b

/-- In-place mutation of the list bound to `k` (the Python code mutates
`arr` obtained from the dict); a missing key is left untouched. -/
def mapSetAt (m : RegionMap) (k : Nat) (arr : List Bbox) : RegionMap :=
  match m with
  | [] => []
  | (k0, v) :: rest =>
    if k0 = k then (k0, arr) :: rest else (k0, v) :: mapSetAt rest k arr

/-- Unconditional burn-in of every manually drawn redact rectangle
(`apply_redactions` lines 1853-1857): every bbox of every page of the
regions map is turned into a redaction annotation, with no protection
or exclusion check. -/
def regionBurnIns (m : RegionMap) : List (Nat × Bbox) :=
  m.flatMap (fun pr => pr.2.map (fun b => (pr.1, b)))

/-- Undo snapshot: the deep copy of `{regions, protect}` taken by
`_snapshot` (the JSON round trip is the identity on values). -/
abbrev Snap := RegionMap × RegionMap

/-- The mutable state of `RegionStore`; `pdf_stem` and `last_autosave`
only feed the I/O side and are omitted. -/
@[ext] structure RegionStore where
  regions : RegionMap
  protect : RegionMap
  history : List Snap
  future : List Snap
deriving DecidableEq

/-- Fresh store, as built by `RegionStore(pdf_stem)`. -/
def RegionStore.empty : RegionStore :=
  { regions := [], protect := [], history := [], future := [] }

/-- History depth bound `MAX_HISTORY = 50`. -/
def MAX_HISTORY : Nat := 50

/-- Current `{regions, protect}` value of a store. -/
def stateOf (s : RegionStore) : Snap :=
  (s.regions, s.protect)

/-- `_snapshot` (lines 285-293): push a deep copy of the current state,
evict the oldest entry when the depth bound is exceeded, clear `future`. -/
def RegionStore.snapshot (s : RegionStore) : RegionStore :=
  let h := s.history ++ [stateOf s]
  { s with history := if MAX_HISTORY < h.length then h.drop 1 else h,
           future := [] }

/-- `add` (lines 295-301): snapshot, then append the bbox verbatim to
the protect map when `kind == 'protect'`, else to the redact map. -/
def RegionStore.add (s : RegionStore) (page : Nat) (bbox : Bbox)
    (kind : String) : RegionStore :=
  let s1 := s.snapshot
  if kind = "protect" then { s1 with protect := mapAppend s1.protect page bbox }
  else { s1 with regions := mapAppend s1.regions page bbox }

/-- `remove` (lines 303-313): snapshot, then pop the indexed bbox when
the index is in range, returning whether a removal happened. -/
def RegionStore.remove (s : RegionStore) (page : Nat) (index : Int)
    (kind : String) : RegionStore × Bool :=
  let s1 := s.snapshot
  let arr := if kind = "protect" then mapGet s1.protect page
             else mapGet s1.regions page
  if 0 ≤ index ∧ index < (arr.length : Int) then
    let arr2 := arr.eraseIdx index.toNat
    (if kind = "protect" then { s1 with protect := mapSetAt s1.protect page arr2 }
     else { s1 with regions := mapSetAt s1.regions page arr2 }, true)
  else (s1, false)

/-- `update` (lines 315-325): snapshot, then overwrite the indexed bbox
verbatim when the index is in range. -/
def RegionStore.update (s : RegionStore) (page : Nat) (index : Int)
    (bbox : Bbox) (kind : String) : RegionStore × Bool :=
  let s1 := s.snapshot
  let arr := if kind = "protect" then mapGet s1.protect page
             else mapGet s1.regions page
  if 0 ≤ index ∧ index < (arr.length : Int) then
    let arr2 := arr.set index.toNat bbox
    (if kind = "protect" then { s1 with protect := mapSetAt s1.protect page arr2 }
     else { s1 with regions := mapSetAt s1.regions page arr2 }, true)
  else (s1, false)

/-- `undo` (lines 327-334): with empty history report `False` and leave
the store unchanged; otherwise push the current state on `future`, pop
the newest history snapshot and make it current. -/
def RegionStore.undo (s : RegionStore) : RegionStore × Bool :=
  match s.history.getLast? with
  | none => (s, false)
  | some st =>
    ({ regions := st.1, protect := st.2,
       history := s.history.dropLast,
       future := s.future ++ [stateOf s] }, true)

/-- `redo` (lines 336-343): symmetric to `undo`, with no depth bound on
the history push. -/
def RegionStore.redo (s : RegionStore) : RegionStore × Bool :=
  match s.future.getLast? with
  | none => (s, false)
  | some st =>
    ({ regions := st.1, protect := st.2,
       history := s.history ++ [stateOf s],
       future := s.future.dropLast }, true)

/-- One mutation of the public API. -/
inductive Mutation where
  | madd (page : Nat) (bbox : Bbox) (kind : String)
  | mremove (page : Nat) (index : Int) (kind : String)
  | mupdate (page : Nat) (index : Int) (bbox : Bbox) (kind : String)
deriving DecidableEq

/-- Predicate picking out `add` mutations. -/
def isAddM : Mutation → Bool
  | .madd _ _ _ => true
  | _ => false

/-- Effect of one mutation on the store. -/
def applyMutation (s : RegionStore) : Mutation → RegionStore
  | .madd p b k => s.add p b k
  | .mremove p i k => (s.remove p i k).1
  | .mupdate p i b k => (s.update p i b k).1

/-- Effect of a mutation sequence, first mutation first. -/
def applyMutations (s : RegionStore) : List Mutation → RegionStore
  | [] => s
  | m :: ms => applyMutations (applyMutation s m) ms

/-- `n` consecutive `undo()` calls. -/
def undoN : Nat → RegionStore → RegionStore
  | 0, s => s
  | n + 1, s => (RegionStore.undo (undoN n s)).1

/-- `n` consecutive `redo()` calls. -/
def redoN : Nat → RegionStore → RegionStore
  | 0, s => s
  | n + 1, s => (RegionStore.redo (redoN n s)).1

/-- States holding immediately before each mutation of a run. -/
def preTrace (s : RegionStore) : List Mutation → List Snap
  | [] => []
  | m :: ms => stateOf s :: preTrace (applyMutation s m) ms

/-- Redo stack contents after fully undoing a run: the state after each
mutation, newest at the bottom. -/
def postStates (s : RegionStore) : List Mutation → List Snap
  | [] => []
  | m :: ms =>
    postStates (applyMutation s m) ms ++ [stateOf (applyMutation s m)]

/-!
Persistence layer.  `write_atomic` (JSONStore, lines 203-208) and the
three load paths the error-handling claims talk about.  File and dump
behaviour is modelled by an explicit event: the code has no exception
handler, so a failing dump or replace propagates; `os.replace` is
atomic.
-/

/-- Contents of the destination file and of the sibling temp file
(`none` = file absent). -/
structure FsState where
  path : Option PyStr
  tmp : Option PyStr
deriving DecidableEq

/-- How one `write_atomic` call can end: full success, a failure while
serializing/writing the temp file (with whatever bytes were flushed),
or a failure of the final `os.replace`. -/
inductive WriteEvent where
  | ok
  | failWrite (leftover : PyStr)
  | failReplace
deriving DecidableEq

/-- `JSONStore.write_atomic(path, obj)`:

    tmp = path.with_suffix(path.suffix + ".tmp")
    with open(tmp, 'w') as f:
        json.dump(obj, f, indent=2)
    os.replace(tmp, path)

The returned flag is `true` when no exception escaped.  There is no
`try`/`except` and no cleanup: a failed dump leaves the partial temp
file, a failed replace leaves the complete temp file; in both failure
cases `path` keeps its previous content. -/
def write_atomic (fs : FsState) (serialized : PyStr) (ev : WriteEvent) :
    FsState × Bool :=
  match ev with
  | .ok => ({ path := some serialized, tmp := none }, true)
  | .failWrite leftover => ({ path := fs.path, tmp := some leftover }, false)
  | .failReplace => ({ path := fs.path, tmp := some serialized }, false)

/-- Region snapshot payload. -/
structure RegionData where
  regions : RegionMap
  protect : RegionMap

/-- `RegionStore.load` (redact_unified.py lines 358-366).  The argument
is the outcome of finding and parsing the newest snapshot file: `none`
when no file exists, `some (.error e)` when `json.loads` raises on
malformed JSON, `some (.ok d)` on success.  The body has no exception
handler, so the parse error propagates to the caller. -/
def loadStore (parsed : Option (Except String RegionData)) :
    Except String RegionStore :=
  match parsed with
  | none => .ok RegionStore.empty
  | some (.error e) => .error e
  | some (.ok d) =>
    .ok { RegionStore.empty with regions := d.regions, protect := d.protect }

/-- Python `dict.update`: existing keys keep their position and take the
new value, unseen keys are appended in order. -/
def dictUpdate {α : Type} (base upd : List (String × α)) : List (String × α) :=
  base.map (fun kv =>
    match upd.find? (fun uv => uv.1 = kv.1) with
    | some uv => uv
    | none => kv)
  ++ upd.filter (fun uv => !(base.any (fun kv => kv.1 = uv.1)))

/-- `JSONStore.load_presets` (lines 247-259): missing file or a raised
parse (`except: pass`) both fall back to the built-in defaults; a
parsed file is merged over a copy of the defaults. -/
def load_presets {α : Type} (defaults : List (String × α))
    (parsed : Option (Except String (List (String × α)))) : List (String × α) :=
  match parsed with
  | none => defaults
  | some (.error _) => defaults
  | some (.ok user) => dictUpdate defaults user

/-- Session loader of `redact-5a_GUI.py` `RegionStore.__init__` (lines
61-67): `json.loads` is wrapped in `try`/`except`, so a malformed file
leaves the fresh empty region list. -/
def loadSession5a {α : Type} (parsed : Option (Except String (List α))) :
    List α :=
  match parsed with
  | none => []
  | some (.error _) => []
  | some (.ok rs) => rs

/-!  Concrete fixtures used by the witness theorems.  -/

/-- Witness occurrence rectangle. -/
def wArea : Rect := ⟨0, 0, 10, 10⟩

/-- Witness protect rectangle fully containing `wArea`. -/
def wProtBig : Rect := ⟨-1, -1, 11, 11⟩

/-- Witness protect rectangle overlapping `wArea` only partially. -/
def wProtPart : Rect := ⟨5, -1, 20, 20⟩

/-- Witness page: one text-layer hit for the pattern `"secret"` and one
OCR word containing it; textbox extraction always raises. -/
def wPage : Page where
  occ := fun t => if t = String.toList "secret" then [wArea] else []
  textbox := fun _ => none
  ocr := [(String.toList "top secret", wArea)]

/-- Normalization predicate in the words of the spec: a four-component
bbox with `x0 < x1` and `y0 < y1`. -/
def specNormalized (b : Bbox) : Bool :=
  match b with
  | [x0, y0, x1, y1] => decide (x0 < x1 ∧ y0 < y1)
  | _ => false

/-- Witness store holding one redact bbox on page 0. -/
def wStore : RegionStore :=
  RegionStore.empty.add 0 [5, 6, 7, 8] "redact"

/-- Store assembled from a current state, a history and a redo stack;
used to phrase the undo and redo computation lemmas. -/
def mkStore (st : Snap) (hist fut : List Snap) : RegionStore :=
  { regions := st.1, protect := st.2, history := hist, future := fut }

/-- Witness first mutation for the history-bound claim. -/
def wAdd1 : Mutation := Mutation.madd 1 [1, 2, 3, 4] "redact"

/-- Witness block of fifty further add mutations. -/
def wRest : List Mutation :=
  List.replicate 50 (Mutation.madd 2 [5, 6, 7, 8] "exclude")

/-- Witness two-mutation run for the round-trip claim. -/
def wMuts : List Mutation :=
  [Mutation.madd 0 [1, 2, 3, 4] "redact", Mutation.mremove 0 0 "redact"]

/-!  Helper lemmas on the substring test.  -/

theorem isLead_iff (a b : List Char) : isLead a b = true ↔ ∃ t, b = a ++ t := by
  induction a generalizing b with
  | nil => simp [isLead]
  | cons x xs ih =>
    cases b with
    | nil => simp [isLead]
    | cons y ys =>
      simp only [isLead, Bool.and_eq_true, beq_iff_eq, ih]
      constructor
      · rintro ⟨hxy, t, ht⟩
        exact ⟨t, by simp [hxy, ht]⟩
      · rintro ⟨t, ht⟩
        obtain ⟨h1, h2⟩ := List.cons.inj ht
        exact ⟨h1.symm, t, h2⟩

theorem isSub_iff (n h : List Char) :
    isSub n h = true ↔ ∃ i, i ≤ h.length ∧ isLead n (h.drop i) = true := by
  simp only [isSub, List.any_eq_true, List.mem_range, Nat.lt_succ_iff]

theorem isSub_trans {a b c : List Char} (hab : isSub a b = true)
    (hbc : isSub b c = true) : isSub a c = true := by
  obtain ⟨i, hi, hia⟩ := (isSub_iff a b).mp hab
  obtain ⟨j, hj, hjb⟩ := (isSub_iff b c).mp hbc
  obtain ⟨t, ht⟩ := (isLead_iff a (b.drop i)).mp hia
  obtain ⟨u, hu⟩ := (isLead_iff b (c.drop j)).mp hjb
  have hlen : c.length - j = b.length + u.length := by
    have := congrArg List.length hu
    simp [List.length_drop] at this
    omega
  refine (isSub_iff a c).mpr ⟨i + j, by omega, ?_⟩
  refine (isLead_iff a (c.drop (i + j))).mpr ⟨t ++ u, ?_⟩
  have hdd : c.drop (i + j) = (c.drop j).drop i := by
    rw [List.drop_drop, Nat.add_comm]
  rw [hdd, hu, List.drop_append_of_le_length hi, ht, List.append_assoc]

/-!  Helper lemmas for the trigger-list flattening (claim C1).  -/

theorem addLine_foldl (lines : List PyStr) (ts : List PyStr) :
    lines.foldl addLine ts
      = ts ++ (lines.map stripPy).filter (fun s => !s.isEmpty) := by
  induction lines generalizing ts with
  | nil => simp
  | cons l ls ih =>
    simp only [List.foldl_cons, List.map_cons, List.filter_cons]
    by_cases h : stripPy l = []
    · simp [addLine, h, ih]
    · have : (!(stripPy l).isEmpty) = true := by
        simp [List.isEmpty_iff, h]
      simp [addLine, h, this, ih, List.append_assoc]

theorem addPassage_foldl (passages : List PyStr) (acc : List PyStr) :
    passages.foldl addPassage acc
      = acc ++ (passages.map passageLines).flatten := by
  induction passages generalizing acc with
  | nil => simp
  | cons p ps ih =>
    simp only [List.foldl_cons, List.map_cons, List.flatten_cons]
    rw [addPassage, addLine_foldl, ih, passageLines, List.append_assoc]

/-- Claim C1, counterexample.  With keywords `["k"]` and the single
passage `"a\nb"`, the claim predicts the flattened trigger list
`["k", "a", "b"]` everywhere.  The code disagrees at every cited site:
`build_targets` produces the passage lines *before* the keywords
(`["a", "b", "k"]`), and `apply_redactions` in redact_unified.py keeps
the passage as the whole multi-line block `"a\nb"` after the keywords,
so the passage *is* searched as one block there. -/
theorem trigger_list_counterexample :
    build_targets [String.toList "a\nb"] [String.toList "k"]
        = [String.toList "a", String.toList "b", String.toList "k"]
    ∧ build_targets [String.toList "a\nb"] [String.toList "k"]
        ≠ [String.toList "k", String.toList "a", String.toList "b"]
    ∧ allPatterns ⟨[String.toList "k"], [String.toList "a\nb"]⟩
        = [String.toList "k", String.toList "a\nb"]
    ∧ allPatterns ⟨[String.toList "k"], [String.toList "a\nb"]⟩
        ≠ [String.toList "k", String.toList "a", String.toList "b"] := by
  refine ⟨by decide, by decide, by decide, by decide⟩

/-- Claim C1, amended.  In `build_targets` (build_standalone.py,
redact-5b_GUI.py) the flattened trigger list is every non-blank stripped
line of every passage, in original order, *followed* by all keywords;
in `apply_redactions` (redact_unified.py) the trigger list is all
keywords followed by the passages as whole multi-line blocks — passages
are not split into lines there. -/
theorem trigger_list_amended (passages keywords : List PyStr) :
    build_targets passages keywords
      = (passages.map passageLines).flatten ++ keywords
    ∧ allPatterns ⟨keywords, passages⟩ = keywords ++ passages := by
  constructor
  · rw [build_targets, addPassage_foldl]
    simp
  · rfl

/-- Claim C2.  If some exclusion string is a case-insensitive substring
of the trigger `t`, then `t` generates no redaction anywhere: the
text-layer loop discards `t` outright, and on the OCR path the
contribution of `t` to every OCR result is empty — whenever `t` occurs
in the OCR text, the exclusion occurs in it too (substring containment
is transitive), so the exclusion check fires. -/
theorem self_exclusion_unconditional (page : Page) (excls : List PyStr)
    (prots : List Rect) (t : PyStr) (h : selfExcluded excls t = true) :
    textRedactionsFor page excls prots t = []
    ∧ ∀ text rect, ocrContribution excls prots text rect t = [] := by
  refine ⟨by simp [textRedactionsFor, h], ?_⟩
  intro text rect
  rw [ocrContribution]
  by_cases hst : isSub (lowerStr t) (lowerStr text) = true
  · rw [if_pos hst]
    by_cases hp : prots.any (fun p => rectContains p rect) = true
    · rw [if_pos hp]
    · rw [if_neg hp]
      have hexc : excls.any (fun e => isSub (lowerStr e) (lowerStr text)) = true := by
        obtain ⟨e, he, hsub⟩ := List.any_eq_true.mp h
        exact List.any_eq_true.mpr ⟨e, he, isSub_trans hsub hst⟩
      rw [if_pos hexc]
  · rw [if_neg hst]

/-- Claim C2, witness: with exclusion `"ecr"` and trigger `"secret"`,
the trigger is self-excluded and yields nothing on either search path
of the witness page. -/
theorem self_exclusion_unconditional_witness :
    selfExcluded [String.toList "ecr"] (String.toList "secret") = true
    ∧ textRedactionsFor wPage [String.toList "ecr"] [] (String.toList "secret") = []
    ∧ ocrContribution [String.toList "ecr"] [] (String.toList "top secret")
        wArea (String.toList "secret") = [] :=
  ⟨by decide,
   (self_exclusion_unconditional wPage [String.toList "ecr"] []
      (String.toList "secret") (by decide)).1,
   (self_exclusion_unconditional wPage [String.toList "ecr"] []
      (String.toList "secret") (by decide)).2 (String.toList "top secret") wArea⟩

/-- Claim C3.  First half: an occurrence fully contained in some
protect region of the page is produced neither by the text-layer loop
nor by the OCR loop.  Second half: if no protect region *contains* the
occurrence (even if some merely intersects it), the protection flag is
false and the occurrence is kept or dropped solely by the search result
and the exclusion checks — partial overlap does not protect. -/
theorem protect_containment (page : Page) (patterns excls : List PyStr)
    (prots : List Rect) (area : Rect) :
    ((∃ p ∈ prots, rectContains p area = true) →
        area ∉ textRedactions page patterns excls prots
        ∧ area ∉ ocrRedactions page patterns excls prots)
    ∧ ((∀ p ∈ prots, rectContains p area = false) →
        isProtectedArea prots area = false
        ∧ ∀ t, area ∈ textRedactionsFor page excls prots t ↔
            (selfExcluded excls t = false ∧ area ∈ page.occ t
             ∧ contextAllows page excls area = true)) := by
  constructor
  · intro hex
    have hprot : isProtectedArea prots area = true := by
      obtain ⟨p, hp, hc⟩ := hex
      exact List.any_eq_true.mpr ⟨p, hp, hc⟩
    constructor
    · intro hmem
      rw [textRedactions, List.mem_flatMap] at hmem
      obtain ⟨t, _, hmem2⟩ := hmem
      rw [textRedactionsFor] at hmem2
      split at hmem2
      · simp at hmem2
      · have hpred := (List.mem_filter.mp hmem2).2
        rw [Bool.and_eq_true, Bool.not_eq_true'] at hpred
        rw [hpred.1] at hprot
        exact Bool.false_ne_true hprot
    · intro hmem
      rw [ocrRedactions, List.mem_flatMap] at hmem
      obtain ⟨tr, _, hmem1⟩ := hmem
      rw [List.mem_flatMap] at hmem1
      obtain ⟨t, _, hmem2⟩ := hmem1
      rw [ocrContribution] at hmem2
      split at hmem2
      · split at hmem2
        · simp at hmem2
        · split at hmem2
          · simp at hmem2
          · rename_i hpf _
            rw [List.mem_singleton] at hmem2
            rw [hmem2] at hprot
            rw [isProtectedArea] at hprot
            rw [hprot] at hpf
            exact hpf rfl
      · simp at hmem2
  · intro hall
    have hprot : isProtectedArea prots area = false := by
      cases hval : isProtectedArea prots area with
      | false => rfl
      | true =>
        obtain ⟨p, hp, hc⟩ := List.any_eq_true.mp hval
        rw [hall p hp] at hc
        exact absurd hc (by simp)
    refine ⟨hprot, ?_⟩
    intro t
    by_cases hse : selfExcluded excls t = true
    · simp [textRedactionsFor, hse]
    · have hse2 : selfExcluded excls t = false := by
        cases h2 : selfExcluded excls t with
        | false => rfl
        | true => exact absurd h2 hse
      simp [textRedactionsFor, hse2, List.mem_filter, hprot]

/-- Claim C3, witness: on the witness page, the fully containing
protect region suppresses the occurrence on both paths, while the
merely intersecting one leaves the occurrence unprotected and it is
redacted. -/
theorem protect_containment_witness :
    (wArea ∉ textRedactions wPage [String.toList "secret"] [] [wProtBig]
     ∧ wArea ∉ ocrRedactions wPage [String.toList "secret"] [] [wProtBig])
    ∧ rectIntersects wProtPart wArea = true
    ∧ isProtectedArea [wProtPart] wArea = false
    ∧ (wArea ∈ textRedactionsFor wPage [] [wProtPart] (String.toList "secret") ↔
        (selfExcluded [] (String.toList "secret") = false
         ∧ wArea ∈ wPage.occ (String.toList "secret")
         ∧ contextAllows wPage [] wArea = true)) :=
  ⟨(protect_containment wPage [String.toList "secret"] [] [wProtBig] wArea).1
     (by decide),
   by decide,
   ((protect_containment wPage [String.toList "secret"] [] [wProtPart] wArea).2
     (by decide)).1,
   ((protect_containment wPage [String.toList "secret"] [] [wProtPart] wArea).2
     (by decide)).2 (String.toList "secret")⟩

/-!  Helper lemmas on the region maps.  -/

theorem mapGet_mapAppend (m : RegionMap) (k : Nat) (b : Bbox) :
    mapGet (mapAppend m k b) k = mapGet m k ++ [b] := by
  induction m with
  | nil => simp [mapGet, mapAppend]
  | cons kv rest ih =>
    obtain ⟨k0, v⟩ := kv
    by_cases h : k0 = k
    · simp [mapGet, mapAppend, h]
    · simp [mapGet, mapAppend, h, ih]

theorem mapGet_mapSetAt (m : RegionMap) (k : Nat) (arr : List Bbox)
    (h : mapGet m k ≠ []) : mapGet (mapSetAt m k arr) k = arr := by
  induction m with
  | nil => simp [mapGet] at h
  | cons kv rest ih =>
    obtain ⟨k0, v⟩ := kv
    by_cases hk : k0 = k
    · simp [mapGet, mapSetAt, hk]
    · simp [mapGet, hk] at h
      simp [mapGet, mapSetAt, hk, ih h]

theorem mem_regionBurnIns (m : RegionMap) (pg : Nat) (b : Bbox)
    (h : b ∈ mapGet m pg) : (pg, b) ∈ regionBurnIns m := by
  induction m with
  | nil => simp [mapGet] at h
  | cons kv rest ih =>
    obtain ⟨k0, v⟩ := kv
    rw [regionBurnIns, List.flatMap_cons]
    by_cases hk : k0 = pg
    · subst hk
      rw [mapGet, if_pos rfl] at h
      exact List.mem_append_left _ (List.mem_map.mpr ⟨b, h, rfl⟩)
    · rw [mapGet, if_neg hk] at h
      exact List.mem_append_right _ (ih h)

/-!  Helper lemmas on snapshots, mutations, undo and redo.  -/

theorem snap_regions (s : RegionStore) : (s.snapshot).regions = s.regions := rfl

theorem snap_protect (s : RegionStore) : (s.snapshot).protect = s.protect := rfl

theorem snap_future (s : RegionStore) : (s.snapshot).future = [] := rfl

theorem snap_hist (s : RegionStore) :
    (s.snapshot).history =
      if 50 < s.history.length + 1 then (s.history ++ [stateOf s]).drop 1
      else s.history ++ [stateOf s] := by
  simp [RegionStore.snapshot, MAX_HISTORY]

theorem snap_hist_lt (s : RegionStore) (h : s.history.length < 50) :
    (s.snapshot).history = s.history ++ [stateOf s] := by
  rw [snap_hist, if_neg]
  omega

theorem applyM_hist (s : RegionStore) (m : Mutation) :
    (applyMutation s m).history = (s.snapshot).history := by
  cases m <;>
    simp only [applyMutation, RegionStore.add, RegionStore.remove,
      RegionStore.update] <;>
    split_ifs <;> rfl

theorem applyM_future (s : RegionStore) (m : Mutation) :
    (applyMutation s m).future = [] := by
  cases m <;>
    simp only [applyMutation, RegionStore.add, RegionStore.remove,
      RegionStore.update] <;>
    split_ifs <;> rfl

theorem applyM_hist_noevict (s : RegionStore) (m : Mutation)
    (h : s.history.length < 50) :
    (applyMutation s m).history = s.history ++ [stateOf s] := by
  rw [applyM_hist, snap_hist_lt s h]

theorem applyMutations_append (xs ys : List Mutation) (s : RegionStore) :
    applyMutations s (xs ++ ys) = applyMutations (applyMutations s xs) ys := by
  induction xs generalizing s with
  | nil => rfl
  | cons x xs ih => simp [applyMutations, ih]

theorem preTrace_length (ms : List Mutation) (s : RegionStore) :
    (preTrace s ms).length = ms.length := by
  induction ms generalizing s with
  | nil => rfl
  | cons m ms ih => simp [preTrace, ih]

theorem applyMs_hist_noevict (ms : List Mutation) (s : RegionStore)
    (h : s.history.length + ms.length ≤ 50) :
    (applyMutations s ms).history = s.history ++ preTrace s ms := by
  induction ms generalizing s with
  | nil => simp [applyMutations, preTrace]
  | cons m ms ih =>
    have hlt : s.history.length < 50 := by simp at h; omega
    have h1 : (applyMutation s m).history = s.history ++ [stateOf s] :=
      applyM_hist_noevict s m hlt
    rw [applyMutations, ih (applyMutation s m) (by rw [h1]; simp at h ⊢; omega),
      h1, preTrace, List.append_assoc, List.singleton_append]

theorem undo_eq_of_getLast (s : RegionStore) (st : Snap)
    (hl : s.history.getLast? = some st) :
    RegionStore.undo s
      = (mkStore st s.history.dropLast (s.future ++ [stateOf s]), true) := by
  unfold RegionStore.undo
  rw [hl]
  rfl

theorem undo_eq_of_empty (s : RegionStore) (hl : s.history = []) :
    RegionStore.undo s = (s, false) := by
  unfold RegionStore.undo
  rw [hl]
  rfl

theorem redo_eq_of_getLast (s : RegionStore) (st : Snap)
    (hl : s.future.getLast? = some st) :
    RegionStore.redo s
      = (mkStore st (s.history ++ [stateOf s]) s.future.dropLast, true) := by
  unfold RegionStore.redo
  rw [hl]
  rfl

theorem redo_eq_of_empty (s : RegionStore) (hl : s.future = []) :
    RegionStore.redo s = (s, false) := by
  unfold RegionStore.redo
  rw [hl]
  rfl

theorem undoN_succ_left (n : Nat) (s : RegionStore) :
    undoN (n + 1) s = undoN n (RegionStore.undo s).1 := by
  induction n generalizing s with
  | zero => rfl
  | succ n ih =>
    show (RegionStore.undo (undoN (n + 1) s)).1 = _
    rw [ih s]
    rfl

theorem undoN_succ (n : Nat) (s : RegionStore) :
    undoN (n + 1) s = (RegionStore.undo (undoN n s)).1 := rfl

theorem redoN_succ_left (n : Nat) (s : RegionStore) :
    redoN (n + 1) s = redoN n (RegionStore.redo s).1 := by
  induction n generalizing s with
  | zero => rfl
  | succ n ih =>
    show (RegionStore.redo (redoN (n + 1) s)).1 = _
    rw [ih s]
    rfl

theorem undo_fst (s : RegionStore) (st : Snap)
    (hl : s.history.getLast? = some st) :
    (RegionStore.undo s).1
      = mkStore st s.history.dropLast (s.future ++ [stateOf s]) := by
  rw [undo_eq_of_getLast s st hl]

theorem redo_fst (s : RegionStore) (st : Snap)
    (hl : s.future.getLast? = some st) :
    (RegionStore.redo s).1
      = mkStore st (s.history ++ [stateOf s]) s.future.dropLast := by
  rw [redo_eq_of_getLast s st hl]

theorem undo_full (ms : List Mutation) : ∀ s : RegionStore, ms ≠ [] →
    s.history.length + ms.length ≤ 50 →
    undoN ms.length (applyMutations s ms)
      = mkStore (stateOf s) s.history (postStates s ms) := by
  induction ms with
  | nil => intro s h; exact absurd rfl h
  | cons m ms ih =>
    intro s _ hlen
    have hlt : s.history.length < 50 := by simp at hlen; omega
    have h1 : (applyMutation s m).history = s.history ++ [stateOf s] :=
      applyM_hist_noevict s m hlt
    by_cases hnil : ms = []
    · subst hnil
      show (RegionStore.undo (undoN 0 (applyMutations (applyMutation s m) []))).1 = _
      rw [undoN, applyMutations,
        undo_fst (applyMutation s m) (stateOf s)
          (by rw [h1]; exact List.getLast?_concat _)]
      apply RegionStore.ext
      · rfl
      · rfl
      · show (applyMutation s m).history.dropLast = s.history
        rw [h1, List.dropLast_concat]
      · show (applyMutation s m).future ++ [stateOf (applyMutation s m)]
            = postStates s [m]
        rw [applyM_future]
        rfl
    · show (RegionStore.undo (undoN ms.length
          (applyMutations (applyMutation s m) ms))).1 = _
      rw [ih (applyMutation s m) hnil (by rw [h1]; simp at hlen ⊢; omega)]
      have hlast : (mkStore (stateOf (applyMutation s m))
          (applyMutation s m).history
          (postStates (applyMutation s m) ms)).history.getLast?
          = some (stateOf s) := by
        show (applyMutation s m).history.getLast? = some (stateOf s)
        rw [h1]
        exact List.getLast?_concat _
      rw [undo_fst _ (stateOf s) hlast]
      apply RegionStore.ext
      · rfl
      · rfl
      · show (applyMutation s m).history.dropLast = s.history
        rw [h1, List.dropLast_concat]
      · rfl

theorem redo_full (ms : List Mutation) : ∀ s : RegionStore, ms ≠ [] →
    s.history.length + ms.length ≤ 50 →
    redoN ms.length (mkStore (stateOf s) s.history (postStates s ms))
      = applyMutations s ms := by
  induction ms with
  | nil => intro s h; exact absurd rfl h
  | cons m ms ih =>
    intro s _ hlen
    have hlt : s.history.length < 50 := by simp at hlen; omega
    have h1 : (applyMutation s m).history = s.history ++ [stateOf s] :=
      applyM_hist_noevict s m hlt
    have hlast : (mkStore (stateOf s) s.history
        (postStates s (m :: ms))).future.getLast?
        = some (stateOf (applyMutation s m)) := by
      show (postStates (applyMutation s m) ms
        ++ [stateOf (applyMutation s m)]).getLast? = _
      exact List.getLast?_concat _
    rw [show (m :: ms).length = ms.length + 1 from rfl, redoN_succ_left,
      redo_fst _ _ hlast]
    show redoN ms.length (mkStore (stateOf (applyMutation s m))
      (s.history ++ [stateOf s])
      ((postStates (applyMutation s m) ms
        ++ [stateOf (applyMutation s m)]).dropLast)) = _
    rw [List.dropLast_concat, ← h1]
    by_cases hnil : ms = []
    · subst hnil
      show mkStore (stateOf (applyMutation s m)) (applyMutation s m).history []
          = applyMutations (applyMutation s m) []
      apply RegionStore.ext
      · rfl
      · rfl
      · rfl
      · show ([] : List Snap) = (applyMutation s m).future
        rw [applyM_future]
    · exact ih (applyMutation s m) hnil (by rw [h1]; simp at hlen ⊢; omega)

theorem drain (n : Nat) : ∀ s : RegionStore, s.history.length = n →
    (undoN n s).history = []
    ∧ ∀ st ts, s.history = st :: ts → stateOf (undoN n s) = st := by
  induction n with
  | zero =>
    intro s h
    refine ⟨List.length_eq_zero.mp h, ?_⟩
    intro st ts hc
    rw [hc] at h
    simp at h
  | succ n ih =>
    intro s h
    have hne : s.history ≠ [] := by intro hc; rw [hc] at h; simp at h
    obtain ⟨st0, hl0⟩ : ∃ st0, s.history.getLast? = some st0 := by
      cases hcase : s.history.getLast? with
      | none => exact absurd (List.getLast?_eq_none_iff.mp hcase) hne
      | some st => exact ⟨st, rfl⟩
    rw [undoN_succ_left, undo_fst s st0 hl0]
    have hlen2 : (mkStore st0 s.history.dropLast
        (s.future ++ [stateOf s])).history.length = n := by
      show s.history.dropLast.length = n
      rw [List.length_dropLast, h]
      omega
    have ih2 := ih _ hlen2
    refine ⟨ih2.1, ?_⟩
    intro st ts hc
    cases ts with
    | nil =>
      have hn0 : n = 0 := by rw [hc] at h; simp at h; omega
      subst hn0
      have hst : st0 = st := by
        rw [hc] at hl0
        simp at hl0
        exact hl0.symm
      show stateOf (mkStore st0 s.history.dropLast (s.future ++ [stateOf s])) = st
      rw [← hst]
      rfl
    | cons t2 ts2 =>
      apply ih2.2 st (t2 :: ts2).dropLast
      show s.history.dropLast = st :: (t2 :: ts2).dropLast
      rw [hc]
      rfl

set_option maxRecDepth 4000 in
/-- Eviction scenario shared by the C5 counterexample and claim C6:
fifty-one mutations applied to a fresh store evict the oldest snapshot,
so fifty undos drain the history and land on the state after the
*first* mutation, and the fifty-first undo is the empty-history no-op. -/
theorem fifty_one_drain (a : Mutation) (rest : List Mutation)
    (hlen : rest.length = 50) :
    (undoN 50 (applyMutations RegionStore.empty (a :: rest))).history = []
    ∧ stateOf (undoN 50 (applyMutations RegionStore.empty (a :: rest)))
        = stateOf (applyMutation RegionStore.empty a)
    ∧ RegionStore.undo (undoN 50 (applyMutations RegionStore.empty (a :: rest)))
        = (undoN 50 (applyMutations RegionStore.empty (a :: rest)), false)
    ∧ stateOf (undoN 51 (applyMutations RegionStore.empty (a :: rest)))
        = stateOf (applyMutation RegionStore.empty a) := by
  have hne : rest ≠ [] := by intro hc; rw [hc] at hlen; simp at hlen
  obtain ⟨mid, mlast, hsplit⟩ : ∃ mid mlast, rest = mid ++ [mlast] :=
    ⟨rest.dropLast, rest.getLast hne, (List.dropLast_append_getLast hne).symm⟩
  have hmidlen : mid.length = 49 := by
    rw [hsplit] at hlen
    simp at hlen
    omega
  obtain ⟨m0, mid', hmid0⟩ : ∃ m0 mid', mid = m0 :: mid' := by
    cases mid with
    | nil => simp at hmidlen
    | cons x xs => exact ⟨x, xs, rfl⟩
  have h1 : (applyMutation RegionStore.empty a).history
      = [stateOf RegionStore.empty] :=
    applyM_hist_noevict RegionStore.empty a (by simp [RegionStore.empty])
  have hMidHist : (applyMutations (applyMutation RegionStore.empty a) mid).history
      = [stateOf RegionStore.empty]
        ++ preTrace (applyMutation RegionStore.empty a) mid := by
    rw [applyMs_hist_noevict mid _ (by rw [h1]; simp [hmidlen]), h1]
  have hMidLen : (applyMutations (applyMutation RegionStore.empty a) mid).history.length
      = 50 := by
    rw [hMidHist]
    simp [preTrace_length, hmidlen]
  have hS' : applyMutations RegionStore.empty (a :: rest)
      = applyMutation (applyMutations (applyMutation RegionStore.empty a) mid) mlast := by
    show applyMutations (applyMutation RegionStore.empty a) rest = _
    rw [hsplit, applyMutations_append]
    rfl
  have hHist' : (applyMutation (applyMutations
        (applyMutation RegionStore.empty a) mid) mlast).history
      = preTrace (applyMutation RegionStore.empty a) mid
        ++ [stateOf (applyMutations (applyMutation RegionStore.empty a) mid)] := by
    rw [applyM_hist, snap_hist, if_pos (by rw [hMidLen]; omega), hMidHist]
    simp
  have hcons : (applyMutation (applyMutations
        (applyMutation RegionStore.empty a) mid) mlast).history
      = stateOf (applyMutation RegionStore.empty a)
        :: (preTrace (applyMutation (applyMutation RegionStore.empty a) m0) mid'
            ++ [stateOf (applyMutations (applyMutation RegionStore.empty a) mid)]) := by
    rw [hHist', hmid0]
    rfl
  have hdr := drain 50 (applyMutation (applyMutations
      (applyMutation RegionStore.empty a) mid) mlast)
    (by rw [hHist']; simp [preTrace_length, hmidlen])
  have hh50 := hdr.1
  have hstate50 := hdr.2 (stateOf (applyMutation RegionStore.empty a)) _ hcons
  refine ⟨by rw [hS']; exact hh50, by rw [hS']; exact hstate50, ?_, ?_⟩
  · rw [hS']
    exact undo_eq_of_empty _ hh50
  · rw [hS', show (51 : Nat) = 50 + 1 from rfl, undoN_succ,
      undo_eq_of_empty _ hh50]
    exact hstate50

/-- Claim C5, counterexample.  Fifty-one add mutations on a fresh store
followed by fifty-one undos do *not* restore the pre-run state: the
history depth bound (50) evicted the oldest snapshot, so the store ends
in the state after the first mutation, not the initial empty state. -/
theorem roundtrip_counterexample :
    stateOf (undoN 51 (applyMutations RegionStore.empty
        (Mutation.madd 0 [0, 0, 1, 1] "redact"
          :: List.replicate 50 (Mutation.madd 0 [0, 0, 1, 1] "redact"))))
      ≠ stateOf RegionStore.empty := by
  rw [(fifty_one_drain (Mutation.madd 0 [0, 0, 1, 1] "redact")
    (List.replicate 50 (Mutation.madd 0 [0, 0, 1, 1] "redact"))
    (by simp)).2.2.2]
  decide

/-- Claim C5, amended.  Provided the run does not overflow the history
depth bound (`history.length + n ≤ 50`, so no snapshot is evicted), a
sequence of `n` mutations followed by `n` undos restores the
`{regions, protect}` state before the first mutation, and `n` further
redos restore the state after the last mutation. -/
theorem roundtrip_amended (s : RegionStore) (ms : List Mutation)
    (h : s.history.length + ms.length ≤ 50) :
    stateOf (undoN ms.length (applyMutations s ms)) = stateOf s
    ∧ stateOf (redoN ms.length (undoN ms.length (applyMutations s ms)))
        = stateOf (applyMutations s ms) := by
  by_cases hnil : ms = []
  · subst hnil
    exact ⟨rfl, rfl⟩
  · rw [undo_full ms s hnil h]
    exact ⟨rfl, by rw [redo_full ms s hnil h]⟩

/-- Claim C5, amended, witness: an add followed by a remove on a fresh
store, two undos and two redos. -/
theorem roundtrip_amended_witness :
    RegionStore.empty.history.length + wMuts.length ≤ 50
    ∧ (stateOf (undoN wMuts.length (applyMutations RegionStore.empty wMuts))
        = stateOf RegionStore.empty
      ∧ stateOf (redoN wMuts.length
          (undoN wMuts.length (applyMutations RegionStore.empty wMuts)))
        = stateOf (applyMutations RegionStore.empty wMuts)) :=
  ⟨by decide, roundtrip_amended RegionStore.empty wMuts (by decide)⟩

/-- Claim C6.  After fifty-one consecutive add calls on a fresh store
(history depth 50), fifty-one undo calls leave the store in the state
after the *first* mutation — which differs from the initial empty state
— and the fifty-first undo reports `False` with the store unchanged,
since the fiftieth undo already drained the history. -/
theorem history_bound_eviction (a : Mutation) (rest : List Mutation)
    (ha : isAddM a = true) (hlen : rest.length = 50)
    (_hall : rest.all isAddM = true) :
    stateOf (undoN 51 (applyMutations RegionStore.empty (a :: rest)))
        = stateOf (applyMutation RegionStore.empty a)
    ∧ stateOf (applyMutation RegionStore.empty a) ≠ stateOf RegionStore.empty
    ∧ RegionStore.undo (undoN 50 (applyMutations RegionStore.empty (a :: rest)))
        = (undoN 50 (applyMutations RegionStore.empty (a :: rest)), false) := by
  obtain ⟨h1, h2, h3, h4⟩ := fifty_one_drain a rest hlen
  refine ⟨h4, ?_, h3⟩
  cases a with
  | madd p b k =>
    by_cases hk : k = "protect"
    · simp [applyMutation, RegionStore.add, stateOf, hk, RegionStore.empty,
        mapAppend, RegionStore.snapshot]
    · simp [applyMutation, RegionStore.add, stateOf, hk, RegionStore.empty,
        mapAppend, RegionStore.snapshot]
  | mremove p i k => simp [isAddM] at ha
  | mupdate p i b k => simp [isAddM] at ha

/-- Claim C6, witness: a concrete run of fifty-one adds. -/
theorem history_bound_eviction_witness :
    isAddM wAdd1 = true
    ∧ wRest.length = 50
    ∧ wRest.all isAddM = true
    ∧ (stateOf (undoN 51 (applyMutations RegionStore.empty (wAdd1 :: wRest)))
        = stateOf (applyMutation RegionStore.empty wAdd1)
      ∧ stateOf (applyMutation RegionStore.empty wAdd1)
        ≠ stateOf RegionStore.empty
      ∧ RegionStore.undo (undoN 50 (applyMutations RegionStore.empty (wAdd1 :: wRest)))
        = (undoN 50 (applyMutations RegionStore.empty (wAdd1 :: wRest)), false)) :=
  ⟨by decide, by decide, by decide,
   history_bound_eviction wAdd1 wRest (by decide) (by decide) (by decide)⟩

theorem snap_getLast (s : RegionStore) :
    (s.snapshot).history.getLast? = some (stateOf s) := by
  rw [snap_hist]
  by_cases h : 50 < s.history.length + 1
  · rw [if_pos h]
    obtain ⟨hh, ht, hcons⟩ : ∃ hh ht, s.history = hh :: ht := by
      cases hc : s.history with
      | nil => rw [hc] at h; simp at h
      | cons x xs => exact ⟨x, xs, rfl⟩
    rw [hcons]
    show (ht ++ [stateOf s]).getLast? = some (stateOf s)
    exact List.getLast?_concat _
  · rw [if_neg h]
    exact List.getLast?_concat _

/-- Claim C10.  A `remove` or `update` whose index is out of range for
the given page and kind returns `False` and leaves `regions` and
`protect` unchanged, but still pushes one snapshot (the store equals
the plain snapshot of the old store) and clears the redo stack: a
subsequent `undo()` returns `True` and restores an identical state,
while `redo()` reports `False` — pending redos became impossible. -/
theorem oob_mutation_snapshots (s : RegionStore) (page : Nat) (index : Int)
    (kind : String) (bbox : Bbox)
    (hoob : ¬ (0 ≤ index ∧ index
      < ((if kind = "protect" then mapGet s.protect page
          else mapGet s.regions page).length : Int))) :
    s.remove page index kind = (s.snapshot, false)
    ∧ s.update page index bbox kind = (s.snapshot, false)
    ∧ stateOf s.snapshot = stateOf s
    ∧ (s.snapshot).future = []
    ∧ (s.snapshot).history.getLast? = some (stateOf s)
    ∧ (RegionStore.undo s.snapshot).2 = true
    ∧ stateOf (RegionStore.undo s.snapshot).1 = stateOf s
    ∧ RegionStore.redo s.snapshot = (s.snapshot, false) := by
  have hrem : s.remove page index kind = (s.snapshot, false) := by
    by_cases hkind : kind = "protect"
    · have hb : ¬ (0 ≤ index ∧ index
          < ((mapGet s.protect page).length : Int)) := by
        simpa [hkind] using hoob
      simp only [RegionStore.remove, hkind, reduceIte, snap_protect]
      rw [if_neg hb]
    · have hb : ¬ (0 ≤ index ∧ index
          < ((mapGet s.regions page).length : Int)) := by
        simpa [hkind] using hoob
      simp only [RegionStore.remove, hkind, if_false, snap_regions]
      rw [if_neg hb]
  have hupd : s.update page index bbox kind = (s.snapshot, false) := by
    by_cases hkind : kind = "protect"
    · have hb : ¬ (0 ≤ index ∧ index
          < ((mapGet s.protect page).length : Int)) := by
        simpa [hkind] using hoob
      simp only [RegionStore.update, hkind, reduceIte, snap_protect]
      rw [if_neg hb]
    · have hb : ¬ (0 ≤ index ∧ index
          < ((mapGet s.regions page).length : Int)) := by
        simpa [hkind] using hoob
      simp only [RegionStore.update, hkind, if_false, snap_regions]
      rw [if_neg hb]
  have hu := undo_eq_of_getLast s.snapshot (stateOf s) (snap_getLast s)
  refine ⟨hrem, hupd, rfl, rfl, snap_getLast s, ?_, ?_, ?_⟩
  · rw [hu]
  · rw [hu]
    rfl
  · exact redo_eq_of_empty s.snapshot rfl

/-- Claim C10, witness: removing and updating index 0 on a page with no
regions at all. -/
theorem oob_mutation_snapshots_witness :
    (¬ (0 ≤ (0 : Int) ∧ (0 : Int)
      < ((if "redact" = "protect" then mapGet RegionStore.empty.protect 7
          else mapGet RegionStore.empty.regions 7).length : Int)))
    ∧ RegionStore.empty.remove 7 0 "redact" = (RegionStore.empty.snapshot, false)
    ∧ RegionStore.empty.update 7 0 [1, 2, 3, 4] "redact"
        = (RegionStore.empty.snapshot, false)
    ∧ (RegionStore.undo RegionStore.empty.snapshot).2 = true
    ∧ stateOf (RegionStore.undo RegionStore.empty.snapshot).1
        = stateOf RegionStore.empty
    ∧ RegionStore.redo RegionStore.empty.snapshot
        = (RegionStore.empty.snapshot, false) :=
  ⟨by decide,
   (oob_mutation_snapshots RegionStore.empty 7 0 "redact" [1, 2, 3, 4]
      (by decide)).1,
   (oob_mutation_snapshots RegionStore.empty 7 0 "redact" [1, 2, 3, 4]
      (by decide)).2.1,
   (oob_mutation_snapshots RegionStore.empty 7 0 "redact" [1, 2, 3, 4]
      (by decide)).2.2.2.2.2.1,
   (oob_mutation_snapshots RegionStore.empty 7 0 "redact" [1, 2, 3, 4]
      (by decide)).2.2.2.2.2.2.1,
   (oob_mutation_snapshots RegionStore.empty 7 0 "redact" [1, 2, 3, 4]
      (by decide)).2.2.2.2.2.2.2⟩

/-- Claim C4, counterexample.  `add` stores the bbox exactly as
supplied: adding the reversed bbox `(10,10,5,5)` reads back as
`(10,10,5,5)` — violating the claimed normalized invariant `x0 < x1 ∧
y0 < y1` — and not as the claimed `(5,5,10,10)`. -/
theorem normalize_on_write_counterexample :
    mapGet (RegionStore.empty.add 2 [10, 10, 5, 5] "redact").regions 2
      = [[10, 10, 5, 5]]
    ∧ specNormalized [10, 10, 5, 5] = false
    ∧ mapGet (RegionStore.empty.add 2 [10, 10, 5, 5] "redact").regions 2
      ≠ [[5, 5, 10, 10]] :=
  ⟨by decide, by decide, by decide⟩

/-- Claim C4, amended.  `add` and `update` store the supplied bbox
verbatim — reversed coordinates are *not* swapped on write, so the
`x0 < x1 ∧ y0 < y1` invariant holds only when the caller normalizes
before invoking the store (the GUI mouse handlers do). -/
theorem normalize_on_write_amended (s : RegionStore) (page : Nat)
    (bbox : Bbox) (kind : String) :
    (kind = "protect" →
      mapGet (s.add page bbox kind).protect page
          = mapGet s.protect page ++ [bbox]
      ∧ (s.add page bbox kind).regions = s.regions)
    ∧ (kind ≠ "protect" →
      mapGet (s.add page bbox kind).regions page
          = mapGet s.regions page ++ [bbox]
      ∧ (s.add page bbox kind).protect = s.protect)
    ∧ (∀ index : Int, kind ≠ "protect" → 0 ≤ index →
      index < ((mapGet s.regions page).length : Int) →
      mapGet ((s.update page index bbox kind).1).regions page
        = (mapGet s.regions page).set index.toNat bbox) := by
  refine ⟨?_, ?_, ?_⟩
  · intro hk
    refine ⟨?_, ?_⟩
    · simp only [RegionStore.add, if_pos hk]
      exact mapGet_mapAppend _ _ _
    · simp only [RegionStore.add, if_pos hk]
      rfl
  · intro hk
    refine ⟨?_, ?_⟩
    · simp only [RegionStore.add, if_neg hk]
      exact mapGet_mapAppend _ _ _
    · simp only [RegionStore.add, if_neg hk]
      rfl
  · intro index hk h0 hlt
    have hne : mapGet s.regions page ≠ [] := by
      intro he
      rw [he] at hlt
      simp at hlt
      omega
    have hb : 0 ≤ index ∧ index < ((mapGet s.regions page).length : Int) :=
      ⟨h0, hlt⟩
    simp only [RegionStore.update, hk, if_false, snap_regions]
    rw [if_pos hb]
    exact mapGet_mapSetAt _ _ _ hne

/-- Claim C4, amended, witness: verbatim storage on both maps plus a
successful in-range update. -/
theorem normalize_on_write_amended_witness :
    (mapGet (wStore.add 0 [1, 2, 3, 4] "protect").protect 0
        = mapGet wStore.protect 0 ++ [[1, 2, 3, 4]]
      ∧ (wStore.add 0 [1, 2, 3, 4] "protect").regions = wStore.regions)
    ∧ (mapGet (wStore.add 0 [9, 9, 0, 0] "redact").regions 0
        = mapGet wStore.regions 0 ++ [[9, 9, 0, 0]]
      ∧ (wStore.add 0 [9, 9, 0, 0] "redact").protect = wStore.protect)
    ∧ mapGet ((wStore.update 0 0 [10, 10, 5, 5] "redact").1).regions 0
        = (mapGet wStore.regions 0).set 0 [10, 10, 5, 5] :=
  ⟨(normalize_on_write_amended wStore 0 [1, 2, 3, 4] "protect").1 rfl,
   (normalize_on_write_amended wStore 0 [9, 9, 0, 0] "redact").2.1 (by decide),
   (normalize_on_write_amended wStore 0 [10, 10, 5, 5] "redact").2.2 0
     (by decide) (by decide) (by decide)⟩

/-- Claim C9.  An `add` with any kind other than `'protect'` (such as
`'exclude'`) appends the bbox to the redact map `regions`, and every
rectangle of that map is burned in unconditionally by the region loop
of `apply_redactions` — no protection or exclusion check applies — so
Exclude-kind regions added through this interface are redacted. -/
theorem exclude_kind_burned (s : RegionStore) (page : Nat) (bbox : Bbox)
    (kind : String) (h : kind ≠ "protect") :
    mapGet (s.add page bbox kind).regions page = mapGet s.regions page ++ [bbox]
    ∧ (s.add page bbox kind).protect = s.protect
    ∧ (∀ (m : RegionMap) (pg : Nat) (b : Bbox),
        b ∈ mapGet m pg → (pg, b) ∈ regionBurnIns m)
    ∧ (page, bbox) ∈ regionBurnIns (s.add page bbox kind).regions := by
  have h1 : mapGet (s.add page bbox kind).regions page
      = mapGet s.regions page ++ [bbox] := by
    simp only [RegionStore.add, if_neg h]
    exact mapGet_mapAppend _ _ _
  refine ⟨h1, ?_, mem_regionBurnIns, ?_⟩
  · simp only [RegionStore.add, if_neg h]
    rfl
  · exact mem_regionBurnIns _ page bbox (by rw [h1]; simp)

/-- Claim C9, witness: an Exclude-kind bbox lands in the redact map and
in the unconditional burn-in list. -/
theorem exclude_kind_burned_witness :
    (("exclude" : String) ≠ "protect")
    ∧ mapGet (RegionStore.empty.add 3 [1, 1, 2, 2] "exclude").regions 3
        = mapGet RegionStore.empty.regions 3 ++ [[1, 1, 2, 2]]
    ∧ (3, [1, 1, 2, 2])
        ∈ regionBurnIns (RegionStore.empty.add 3 [1, 1, 2, 2] "exclude").regions :=
  ⟨by decide,
   (exclude_kind_burned RegionStore.empty 3 [1, 1, 2, 2] "exclude" (by decide)).1,
   (exclude_kind_burned RegionStore.empty 3 [1, 1, 2, 2] "exclude" (by decide)).2.2.2⟩

/-- Claim C7, counterexample.  A failure during the temp-file write
leaves the partially written temp file on disk — `write_atomic` has no
cleanup, so the claimed removal of the temporary file does not happen
(the destination, however, keeps its old content). -/
theorem write_atomic_counterexample :
    (write_atomic ⟨some (String.toList "old"), none⟩ (String.toList "new")
        (WriteEvent.failWrite (String.toList "ne"))).1.tmp
      = some (String.toList "ne")
    ∧ (write_atomic ⟨some (String.toList "old"), none⟩ (String.toList "new")
        (WriteEvent.failWrite (String.toList "ne"))).1.tmp ≠ none
    ∧ (write_atomic ⟨some (String.toList "old"), none⟩ (String.toList "new")
        (WriteEvent.failWrite (String.toList "ne"))).1.path
      = some (String.toList "old") :=
  ⟨rfl, by decide, rfl⟩

/-- Claim C7, amended.  `write_atomic` either fully replaces the content
of `path` with the serialization (exactly when it returns without an
exception, i.e. on the `ok` event), or leaves the previous content of
`path` untouched — no half-written artifact ever appears at `path`;
the temp file, however, is not removed on failure. -/
theorem write_atomic_amended (fs : FsState) (serialized : PyStr)
    (ev : WriteEvent) :
    (write_atomic fs serialized ev).1.path
      = (if (write_atomic fs serialized ev).2 then some serialized else fs.path)
    ∧ ((write_atomic fs serialized ev).2 = true ↔ ev = WriteEvent.ok) := by
  cases ev <;> simp [write_atomic]

/-- Claim C8, counterexample.  `RegionStore.load` in redact_unified.py
parses the snapshot with no exception handler: malformed JSON raises
out of the load path instead of falling back to an empty store. -/
theorem load_corrupt_counterexample :
    loadStore (some (Except.error "Expecting value: line 1 column 1 (char 0)"))
      = Except.error "Expecting value: line 1 column 1 (char 0)" := rfl

/-- Claim C8, amended.  `JSONStore.load_presets` and the 5a session
loader recover from corrupt JSON by falling back to the defaults (and a
missing file behaves the same), but `RegionStore.load` in
redact_unified.py propagates the parse error to its caller. -/
theorem load_corrupt_amended {α β : Type} (e : String)
    (defaults user : List (String × α)) (d : RegionData) :
    load_presets defaults none = defaults
    ∧ load_presets defaults (some (Except.error e)) = defaults
    ∧ load_presets defaults (some (Except.ok user)) = dictUpdate defaults user
    ∧ @loadSession5a β (some (Except.error e)) = []
    ∧ loadStore (some (Except.error e)) = Except.error e
    ∧ loadStore none = Except.ok RegionStore.empty
    ∧ loadStore (some (Except.ok d))
        = Except.ok { RegionStore.empty with
            regions := d.regions, protect := d.protect } :=
  ⟨rfl, rfl, rfl, rfl, rfl, rfl, rfl⟩

end Redact
